import Mathlib

set_option autoImplicit false

/-!
Verification of the process-management and virtual-memory core of the
rCore-based kernel (files `src/os/src/syscall/process.rs`,
`src/os/src/task/mod.rs`, `src/os/src/task/processor.rs`).

The Rust source is shallowly embedded: each syscall or scheduler routine
becomes a pure Lean function on an explicit state (children lists, area
lists, heap bookkeeping, ready queues).  Machine integers are modelled by
`Nat`/`Int`, with wrapping casts written out explicitly where the source
performs them.  Functions of the repository that are referenced by the
three files but whose definitions live outside them (the `mm` layer, the
`TaskControlBlock` methods, the task manager's `fetch_task`) are modelled
from the specification document and carry a doc comment saying so.
-/

namespace RCore

/-! ## Task status of the process model (`task/task.rs`) -/

/-- Lifecycle status of a task in the process model:
    `Ready | Running | Zombie` (spec section 4.3). -/
inductive TaskStatus where
  | Ready
  | Running
  | Zombie
deriving DecidableEq, Repr

/-! ## `sys_waitpid` (`syscall/process.rs`) -/

/-- A child task control block as observed by `sys_waitpid`:
    its pid, its lifecycle status and its recorded exit code. -/
structure Child where
  pid : Nat
  status : TaskStatus
  exit_code : Int
deriving DecidableEq, Repr

/-- Source test `p.inner_exclusive_access().is_zombie()`. -/
def is_zombie (c : Child) : Bool :=
  c.status == TaskStatus.Zombie

/-- Source test `pid == -1 || pid as usize == p.getpid()`.
    `pid as usize` is the wrapping cast of the `isize` argument to a
    64-bit unsigned integer, written here as `pid mod 2 ^ 64`. -/
def pidMatches (pid : Int) (c : Child) : Bool :=
  pid == -1 || ((pid % (2 ^ 64 : Int)).toNat == c.pid)

/-- Source search
    `children.iter().enumerate().find(|(_, p)| p.is_zombie() && (pid == -1 || pid as usize == p.getpid()))`:
    the first index (with its entry) whose child is a zombie matching `pid`. -/
def findZombie (pid : Int) : List Child → Option (Nat × Child)
  | [] => none
  | c :: rest =>
    if is_zombie c && pidMatches pid c then some (0, c)
    else (findZombie pid rest).map fun p => (p.1 + 1, p.2)

/-- Observable result of one `sys_waitpid` call: the syscall return value,
    the caller's updated children list, and the exit code written through
    `exit_code_ptr` (when any write happens). -/
structure WaitpidResult where
  ret : Int
  children : List Child
  written : Option Int
deriving DecidableEq, Repr

/-- Source function `sys_waitpid` of `syscall/process.rs`: return -1 when no
    child matches `pid`; otherwise reap the first matching zombie child
    (remove it, write its exit code, return its pid) or return -2 when no
    matching child is a zombie yet. -/
def sys_waitpid (children : List Child) (pid : Int) : WaitpidResult :=
  if !children.any (pidMatches pid) then
    { ret := -1, children := children, written := none }
  else
    match findZombie pid children with
    | some (idx, child) =>
      { ret := (child.pid : Int), children := children.eraseIdx idx,
        written := some child.exit_code }
    | none =>
      { ret := -2, children := children, written := none }

/-- Specification-level notion of a child matching the `pid` argument:
    `-1` matches any child, otherwise `pid` must equal the child's pid. -/
def specMatches (pid : Int) (c : Child) : Prop :=
  pid = -1 ∨ pid = (c.pid : Int)

instance (pid : Int) (c : Child) : Decidable (specMatches pid c) := by
  unfold specMatches; infer_instance

/-! ## Virtual memory: pages, areas, `sys_mmap` / `sys_munmap` -/

/-- Modelled from the spec: the page size of the paged address space
    (`config::PAGE_SIZE`, 4096 bytes on this RISC-V kernel). -/
def PAGE_SIZE : Nat := 4096

/-- Modelled from the spec: `VirtAddr::aligned` — the address is a page
    boundary. -/
def aligned (va : Nat) : Bool :=
  va % PAGE_SIZE == 0

/-- Modelled from the spec: `VirtAddr::floor` — the page number of the
    address, rounded down. -/
def floorVpn (va : Nat) : Nat :=
  va / PAGE_SIZE

/-- Modelled from the spec: `VirtAddr::ceil` — the page number of the
    address, rounded up. -/
def ceilVpn (va : Nat) : Nat :=
  (va + PAGE_SIZE - 1) / PAGE_SIZE

/-- A mapped area of a task's address space: its page-number range
    `[l, r)` together with its permission bits (spec section 3, address
    space: an ordered set of areas with a range and a permission set). -/
structure Area where
  l : Nat
  r : Nat
  perm : Nat
deriving DecidableEq, Repr

/-- Modelled from the spec: `MemorySet::is_overlapped` — whether the
    page-number-rounded request `[l, r)` intersects any existing area. -/
def is_overlapped (areas : List Area) (l r : Nat) : Bool :=
  areas.any fun a => decide (max a.l l < min a.r r)

-- `MapPermission` bit values (modelled from the spec: the R/W/X/U bits of
-- a page-table entry, with `U` the user-accessible bit).
def MAP_PERM_R : Nat := 2
def MAP_PERM_W : Nat := 4
def MAP_PERM_X : Nat := 8
def MAP_PERM_U : Nat := 16

/-- Source expression
    `MapPermission::U | MapPermission::from_bits_truncate((port << 1) as u8)`:
    truncate `port << 1` to a byte, keep only the defined permission bits,
    and set the user bit. -/
def mmapPerm (port : Nat) : Nat :=
  MAP_PERM_U ||| (((port <<< 1) % 2 ^ 8) &&&
    (MAP_PERM_R ||| MAP_PERM_W ||| MAP_PERM_X ||| MAP_PERM_U))

/-- Source function `insert_framed_area` (`task/processor.rs`, and
    identically `TaskManager::insert_current_framed_area` in `task/mod.rs`),
    composed with the modelled `MemorySet::insert_framed_area`: reject with
    -1 when the page-number-rounded request overlaps an existing area,
    otherwise record the new framed area and return 0. -/
def insert_framed_area (areas : List Area) (start_va end_va perm : Nat) :
    Int × List Area :=
  if is_overlapped areas (floorVpn start_va) (ceilVpn end_va) then (-1, areas)
  else (0, areas ++ [{ l := floorVpn start_va, r := ceilVpn end_va, perm := perm }])

/-- Source function `sys_mmap` (`syscall/process.rs`):
    `if !start_va.aligned() || (port & 0x7) == 0 || (port & !0x7) != 0 { -1 }`,
    else insert the framed area over `[start, start + len)`.
    `!0x7` on a 64-bit `usize` is the constant `2 ^ 64 - 8`. -/
def sys_mmap (areas : List Area) (start len port : Nat) : Int × List Area :=
  if !aligned start || port &&& 0x7 == 0 || port &&& (2 ^ 64 - 8) != 0 then
    (-1, areas)
  else
    insert_framed_area areas start (start + len) (mmapPerm port)

/-- Modelled from the spec: the area-removal step of `MemorySet::unmap` —
    delete the area whose page range matches the requested start/extent
    exactly; `none` when no area matches (the "not present" failure). -/
def removeArea (areas : List Area) (l r : Nat) : Option (List Area) :=
  match areas with
  | [] => none
  | a :: rest =>
    if a.l == l && a.r == r then some rest
    else (removeArea rest l r).map (a :: ·)

/-- Source function `unmap_framed_area` (`task/processor.rs`, and
    identically `TaskManager::unmap_current_framed_area` in `task/mod.rs`),
    composed with the modelled `MemorySet::unmap`: remove the matching
    area and return 0, or return -1 when none matches. -/
def unmap_framed_area (areas : List Area) (start_va end_va : Nat) :
    Int × List Area :=
  match removeArea areas (floorVpn start_va) (ceilVpn end_va) with
  | some rest => (0, rest)
  | none => (-1, areas)

/-- Source function `sys_munmap` (`syscall/process.rs`): -1 on a
    misaligned start, otherwise unmap `[start, start + len)`. -/
def sys_munmap (areas : List Area) (start len : Nat) : Int × List Area :=
  if !aligned start then (-1, areas)
  else unmap_framed_area areas start (start + len)

/-! ## `sys_fork` (`syscall/process.rs`) -/

/-- A task as observed by `sys_fork`: its pid and the return-value
    register slot `x[10]` of its trap context. -/
structure ForkTask where
  pid : Nat
  trap_x10 : Int
deriving DecidableEq, Repr

/-- Modelled from the spec: `TaskControlBlock::fork` deep-copies the
    parent (duplicating the trap context) and assigns a fresh id from the
    pid allocator; `fresh_pid` is the allocator's next free id. -/
def fork (parent : ForkTask) (fresh_pid : Nat) : ForkTask :=
  { pid := fresh_pid, trap_x10 := parent.trap_x10 }

/-- Modelled from the spec: `add_task` appends the task to the
    scheduler's ready queue. -/
def add_task (queue : List ForkTask) (t : ForkTask) : List ForkTask :=
  queue ++ [t]

/-- Scheduler-side state touched by `sys_fork`: the pid allocator (every
    allocated pid is below `next_pid`) and the ready queue. -/
structure ForkEnv where
  next_pid : Nat
  ready_queue : List ForkTask
deriving DecidableEq, Repr

/-- Source function `sys_fork` (`syscall/process.rs`): fork the current
    task, set `x[10]` of the child's trap context to 0 (so the child's
    first observed return value is 0), add the child to the ready queue,
    and return the child's pid. -/
def sys_fork (parent : ForkTask) (env : ForkEnv) : Int × ForkEnv :=
  let new_task := fork parent env.next_pid
  let new_pid := new_task.pid
  let new_task2 : ForkTask := { new_task with trap_x10 := 0 }
  ((new_pid : Int),
   { next_pid := env.next_pid + 1,
     ready_queue := add_task env.ready_queue new_task2 })

/-! ## `sys_sbrk` (`syscall/process.rs`, `task/mod.rs`) -/

/-- Heap bookkeeping of a task: the fixed heap base and the current
    program break. -/
structure HeapState where
  heap_bottom : Nat
  program_brk : Nat
deriving DecidableEq, Repr

/-- Modelled from the spec: `TaskControlBlock::change_program_brk` (the
    spec's `adjust_break`) — move the break by `size` bytes; fail with
    `none`, leaving the break unchanged, when the new break would drop
    below the heap's fixed base; otherwise return the old break. -/
def change_program_brk (st : HeapState) (size : Int) : Option Nat × HeapState :=
  if (st.program_brk : Int) + size < (st.heap_bottom : Int) then (none, st)
  else (some st.program_brk,
        { st with program_brk := ((st.program_brk : Int) + size).toNat })

/-- Source function `sys_sbrk` (`syscall/process.rs`): the old break on
    success, -1 on failure. -/
def sys_sbrk (st : HeapState) (size : Int) : Int × HeapState :=
  match change_program_brk st size with
  | (some old_brk, st2) => ((old_brk : Int), st2)
  | (none, st2) => (-1, st2)

/-! ## The processor idle loop `run_tasks` (`task/processor.rs`) -/

/-- The fields of a process-model task touched by `run_tasks`: its status
    and its first-scheduled timestamp. -/
structure PTask where
  status : TaskStatus
  scheduled_time : Option Nat
deriving DecidableEq, Repr

/-- Modelled from the spec: `TaskManager::fetch_task` removes and returns
    the next task of the ready queue; nothing when the queue is empty. -/
def fetch_task (queue : List PTask) : Option (PTask × List PTask) :=
  match queue with
  | [] => none
  | t :: rest => some (t, rest)

/-- What one iteration of the idle loop `run_tasks` does: switch into a
    fetched task, or log a warning and retry, or halt the kernel. The
    `halt` outcome is the specification's vocabulary for an unrecoverable
    fault; the embedded loop body below never produces it. -/
inductive RunTasksOutcome where
  | dispatch (task : PTask) (rest : List PTask)
  | warnContinue
  | halt
deriving DecidableEq, Repr

/-- Source loop body of `run_tasks` (`task/processor.rs`): fetch a task,
    mark it `Running`, make it current and switch into it; when
    `fetch_task` yields nothing, emit the warning
    `no tasks available in run_tasks` and loop again. -/
def run_tasks_step (queue : List PTask) : RunTasksOutcome :=
  match fetch_task queue with
  | some (task, rest) =>
    RunTasksOutcome.dispatch { task with status := TaskStatus.Running } rest
  | none => RunTasksOutcome.warnContinue

/-! ## The `TaskManager` scheduler (`task/mod.rs`) -/

/-- Lifecycle status of a task in the static task list of `task/mod.rs`:
    that file marks tasks `Ready`, `Running` or `Exited`. -/
inductive TMStatus where
  | Ready
  | Running
  | Exited
deriving DecidableEq, Repr

/-- The fields of a task control block of `task/mod.rs` touched by
    `run_next_task`. -/
structure TMTask where
  status : TMStatus
  scheduled_time : Option Nat
deriving DecidableEq, Repr

/-- `TaskManagerInner` plus the `num_app` field of `TaskManager`. -/
structure TMState where
  num_app : Nat
  tasks : List TMTask
  current_task : Nat
deriving DecidableEq, Repr

/-- Source function `TaskManager::find_next_task`: scan the ids
    `current+1 .. current+num_app` modulo `num_app` for the first `Ready`
    task. -/
def find_next_task (tm : TMState) : Option Nat :=
  ((List.range tm.num_app).map fun i => (tm.current_task + 1 + i) % tm.num_app).find?
    fun id =>
      match tm.tasks.get? id with
      | some t => t.status == TMStatus.Ready
      | none => false

/-- Outcome of `TaskManager::run_next_task`: a context switch into task
    `next`, the `All applications completed!` kernel panic when no task
    is ready, or the index panic of `tasks[next]` (unreachable when the
    task list has `num_app` entries). -/
inductive RunNextOutcome where
  | switchTo (next : Nat)
  | panicAllCompleted
  | indexPanic
deriving DecidableEq, Repr

/-- Source function `TaskManager::run_next_task` (`task/mod.rs`): find
    the next ready task; mark it `Running`, record `scheduled_time` when
    it is still unset, make it current and switch into it; panic when no
    ready task exists. `now` is the value of `get_time_ms()`. -/
def run_next_task (tm : TMState) (now : Nat) : RunNextOutcome × TMState :=
  match find_next_task tm with
  | some next =>
    match tm.tasks.get? next with
    | some t =>
      let t2 : TMTask :=
        { t with status := TMStatus.Running,
                 scheduled_time :=
                   if t.scheduled_time = none then some now else t.scheduled_time }
      (RunNextOutcome.switchTo next,
       { tm with tasks := tm.tasks.set next t2, current_task := next })
    | none => (RunNextOutcome.indexPanic, tm)
  | none => (RunNextOutcome.panicAllCompleted, tm)

/-! ## Syscall counting (`task/processor.rs`, `task/mod.rs`) -/

/-- Lookup in the `BTreeMap` syscall counter (`syscall_counter.get`),
    rendered as a key-value list with pairwise-distinct keys. -/
def counterGet (m : List (Nat × Nat)) (k : Nat) : Option Nat :=
  match m with
  | [] => none
  | (k2, v) :: rest => if k2 == k then some v else counterGet rest k

/-- Source function `count_current_syscall` (identical in
    `task/processor.rs` and `task/mod.rs`): increment the entry of
    `syscall_id` when present, else insert it with count 1. -/
def count_current_syscall (m : List (Nat × Nat)) (syscall_id : Nat) :
    List (Nat × Nat) :=
  match m with
  | [] => [(syscall_id, 1)]
  | (k, v) :: rest =>
    if k == syscall_id then (k, v + 1) :: rest
    else (k, v) :: count_current_syscall rest syscall_id

/-- Source function `current_syscall_counter` (identical in
    `task/processor.rs` and `task/mod.rs`): materialise the map into the
    dense array `[0; MAX_SYSCALL_NUM]` (`maxNum` stands for the
    `MAX_SYSCALL_NUM` configuration constant), writing each stored entry
    at its id; `none` models the index panic on a stored id out of
    range. -/
def current_syscall_counter (maxNum : Nat) (m : List (Nat × Nat)) :
    Option (List Nat) :=
  m.foldlM (fun acc p => if p.1 < maxNum then some (acc.set p.1 p.2) else none)
    (List.replicate maxNum 0)

/-- On pids in the `isize` range, against children whose pids fit in the
    allocator's range, the source test agrees with the spec-level match. -/
theorem pidMatches_iff_specMatches (pid : Int) (c : Child)
    (h1 : -2 ^ 63 ≤ pid) (h2 : pid < 2 ^ 63) (h3 : (c.pid : Int) < 2 ^ 63) :
    pidMatches pid c = true ↔ specMatches pid c := by
  simp only [pidMatches, specMatches, Bool.or_eq_true, beq_iff_eq]
  omega

theorem any_pidMatches_iff (children : List Child) (pid : Int)
    (h1 : -2 ^ 63 ≤ pid) (h2 : pid < 2 ^ 63)
    (h3 : ∀ c ∈ children, (c.pid : Int) < 2 ^ 63) :
    children.any (pidMatches pid) = true ↔ ∃ c ∈ children, specMatches pid c := by
  rw [List.any_eq_true]
  constructor
  · rintro ⟨c, hc, hm⟩
    exact ⟨c, hc, (pidMatches_iff_specMatches pid c h1 h2 (h3 c hc)).mp hm⟩
  · rintro ⟨c, hc, hm⟩
    exact ⟨c, hc, (pidMatches_iff_specMatches pid c h1 h2 (h3 c hc)).mpr hm⟩

/-- When index `idx` holds the first zombie matching child, the source search
    returns exactly that index and entry. -/
theorem findZombie_eq_of_first (pid : Int) (children : List Child)
    (idx : Nat) (hidx : idx < children.length)
    (h1 : -2 ^ 63 ≤ pid) (h2 : pid < 2 ^ 63)
    (h3 : ∀ c ∈ children, (c.pid : Int) < 2 ^ 63)
    (hz : (children.get ⟨idx, hidx⟩).status = TaskStatus.Zombie)
    (hm : specMatches pid (children.get ⟨idx, hidx⟩))
    (hfirst : ∀ j (hj : j < idx),
      ¬((children.get ⟨j, by omega⟩).status = TaskStatus.Zombie ∧
        specMatches pid (children.get ⟨j, by omega⟩))) :
    findZombie pid children = some (idx, children.get ⟨idx, hidx⟩) := by
  induction children generalizing idx with
  | nil => simp at hidx
  | cons c rest ih =>
    match idx with
    | 0 =>
      simp only [List.get] at hz hm
      have hzb : is_zombie c = true := by
        simp [is_zombie, hz]
      have hmb : pidMatches pid c = true :=
        (pidMatches_iff_specMatches pid c h1 h2 (h3 c (by simp))).mpr hm
      simp [findZombie, hzb, hmb]
    | idx + 1 =>
      have hnot : ¬(is_zombie c = true ∧ pidMatches pid c = true) := by
        intro ⟨ha, hb⟩
        refine hfirst 0 (by omega) ⟨?_, ?_⟩
        · simpa [is_zombie] using ha
        · exact (pidMatches_iff_specMatches pid c h1 h2 (h3 c (by simp))).mp hb
      have hcond : (is_zombie c && pidMatches pid c) = false := by
        cases hzb : is_zombie c with
        | false => simp [hzb]
        | true =>
          cases hmb : pidMatches pid c with
          | false => simp [hmb]
          | true => exact absurd ⟨hzb, hmb⟩ hnot
      have hrec := ih idx (by simpa using hidx) (fun c hc => h3 c (by simp [hc]))
        (by simpa using hz) (by simpa using hm)
        (fun j hj => by
          have := hfirst (j + 1) (by omega)
          simpa using this)
      simp [findZombie, hcond, hrec]

/-- Whatever pair the source search returns holds a child of the list that
    is a zombie and matches `pid`. -/
theorem findZombie_mem (pid : Int) (c : Child) (children : List Child) :
    ∀ idx, findZombie pid children = some (idx, c) →
      c ∈ children ∧ is_zombie c = true ∧ pidMatches pid c = true := by
  induction children with
  | nil => intro idx h; simp [findZombie] at h
  | cons d rest ih =>
    intro idx h
    by_cases hcond : (is_zombie d && pidMatches pid d) = true
    · simp only [findZombie, if_pos hcond] at h
      simp only [Option.some.injEq, Prod.mk.injEq] at h
      obtain ⟨-, hc⟩ := h
      subst hc
      have hcond2 : is_zombie d = true ∧ pidMatches pid d = true := by
        simpa using hcond
      exact ⟨by simp, hcond2.1, hcond2.2⟩
    · simp only [findZombie, if_neg hcond] at h
      rcases hrec : findZombie pid rest with _ | ⟨j, c'⟩ <;> rw [hrec] at h
      · simp at h
      · simp only [Option.map_some', Option.some.injEq, Prod.mk.injEq] at h
        obtain ⟨-, hc⟩ := h
        subst hc
        obtain ⟨hmem, hrest⟩ := ih j hrec
        exact ⟨by simp [hmem], hrest⟩

/-- C1: For every call to sys_waitpid(pid, exit_code_ptr): if the calling
task has no child whose pid matches (pid == -1 matches any child), it
returns -1; if matching children exist but none has Zombie status, it
returns -2; otherwise it removes the first matching Zombie child from the
caller's children list, writes that child's exit code through
exit_code_ptr, and returns that child's pid. -/
theorem waitpid_spec (children : List Child) (pid : Int)
    (h1 : -2 ^ 63 ≤ pid) (h2 : pid < 2 ^ 63)
    (h3 : ∀ c ∈ children, (c.pid : Int) < 2 ^ 63) :
    ((¬ ∃ c ∈ children, specMatches pid c) →
      sys_waitpid children pid = { ret := -1, children := children, written := none }) ∧
    ((∃ c ∈ children, specMatches pid c) →
     (∀ c ∈ children, specMatches pid c → c.status ≠ TaskStatus.Zombie) →
      sys_waitpid children pid = { ret := -2, children := children, written := none }) ∧
    (∀ idx (hidx : idx < children.length),
      (children.get ⟨idx, hidx⟩).status = TaskStatus.Zombie →
      specMatches pid (children.get ⟨idx, hidx⟩) →
      (∀ j (hj : j < idx),
        ¬((children.get ⟨j, by omega⟩).status = TaskStatus.Zombie ∧
          specMatches pid (children.get ⟨j, by omega⟩))) →
      sys_waitpid children pid =
        { ret := ((children.get ⟨idx, hidx⟩).pid : Int),
          children := children.eraseIdx idx,
          written := some (children.get ⟨idx, hidx⟩).exit_code }) := by
  refine ⟨?_, ?_, ?_⟩
  · intro hno
    have hany : children.any (pidMatches pid) = false := by
      cases h : children.any (pidMatches pid) with
      | false => rfl
      | true => exact absurd ((any_pidMatches_iff children pid h1 h2 h3).mp h) hno
    simp [sys_waitpid, hany]
  · intro hyes hnoz
    have hany : children.any (pidMatches pid) = true :=
      (any_pidMatches_iff children pid h1 h2 h3).mpr hyes
    have hfz : findZombie pid children = none := by
      rcases hfz : findZombie pid children with _ | ⟨idx, c⟩
      · rfl
      · exfalso
        obtain ⟨hc', hzc', hmc'⟩ := findZombie_mem pid c children idx hfz
        exact hnoz c hc'
          ((pidMatches_iff_specMatches pid c h1 h2 (h3 c hc')).mp hmc')
          (by simpa [is_zombie] using hzc')
    simp [sys_waitpid, hany, hfz]
  · intro idx hidx hz hm hfirst
    have hany : children.any (pidMatches pid) = true :=
      (any_pidMatches_iff children pid h1 h2 h3).mpr
        ⟨children.get ⟨idx, hidx⟩, by simp [List.get_mem], hm⟩
    have hfz := findZombie_eq_of_first pid children idx hidx h1 h2 h3 hz hm hfirst
    simp [sys_waitpid, hany, hfz]

/-- Concrete instantiation of `waitpid_spec`: with one running child of
pid 2, `waitpid(-1)` returns -2 without touching the children list. -/
theorem waitpid_spec_witness :
    sys_waitpid [{ pid := 2, status := TaskStatus.Running, exit_code := 0 }] (-1) =
      { ret := -2,
        children := [{ pid := 2, status := TaskStatus.Running, exit_code := 0 }],
        written := none } := by
  have h := (waitpid_spec
    [{ pid := 2, status := TaskStatus.Running, exit_code := 0 }] (-1)
    (by decide) (by decide) (by decide)).2.1
  exact h (by decide) (by decide)

/-! ## Theorems about `sys_mmap` / `sys_munmap` -/

/-- The source test `(port & 0x7) == 0` means every one of the three low
    bits of `port` is clear. -/
theorem land_seven_eq_zero_iff (port : Nat) :
    port &&& 7 = 0 ↔ ∀ i < 3, port.testBit i = false := by
  constructor
  · intro h i hi
    have hbit := congrArg (fun n => Nat.testBit n i) h
    simp only [Nat.testBit_and, Nat.zero_testBit, Bool.and_eq_false_iff] at hbit
    rcases hbit with hbit | hbit
    · exact hbit
    · exfalso
      interval_cases i <;> exact absurd hbit (by decide)
  · intro h
    apply Nat.eq_of_testBit_eq
    intro i
    simp only [Nat.testBit_and, Nat.zero_testBit, Bool.and_eq_false_iff]
    by_cases hi : i < 3
    · exact Or.inl (h i hi)
    · right
      have h7 : (7 : Nat) < 2 ^ i := by
        calc (7 : Nat) < 2 ^ 3 := by norm_num
        _ ≤ 2 ^ i := Nat.pow_le_pow_right (by norm_num) (by omega)
      exact Nat.testBit_lt_two_pow h7

/-- The source test `(port & !0x7) != 0` (64-bit mask `2 ^ 64 - 8`) means
    some bit of `port` above bit 2 is set, for `port` in the `usize`
    range. -/
theorem land_mask_ne_zero_iff (port : Nat) (hport : port < 2 ^ 64) :
    port &&& (2 ^ 64 - 8) ≠ 0 ↔ ∃ i, 3 ≤ i ∧ port.testBit i = true := by
  have hmask : (2 ^ 64 - 8 : Nat) = (2 ^ 61 - 1) <<< 3 := by decide
  have hmaskBit : ∀ i, (2 ^ 64 - 8 : Nat).testBit i = (decide (3 ≤ i) && decide (i - 3 < 61)) := by
    intro i
    rw [hmask, Nat.testBit_shiftLeft, Nat.testBit_two_pow_sub_one]
  constructor
  · intro h
    obtain ⟨i, hbit⟩ := Nat.ne_zero_implies_bit_true h
    rw [Nat.testBit_and, hmaskBit i] at hbit
    simp only [Bool.and_eq_true, decide_eq_true_eq] at hbit
    exact ⟨i, hbit.2.1, hbit.1⟩
  · rintro ⟨i, h3, hbit⟩ h0
    have hi64 : i < 64 := by
      by_contra hge
      have hlt : port < 2 ^ i :=
        lt_of_lt_of_le hport (Nat.pow_le_pow_right (by norm_num) (by omega))
      rw [Nat.testBit_lt_two_pow hlt] at hbit
      exact Bool.noConfusion hbit
    have hbit2 := congrArg (fun n => Nat.testBit n i) h0
    simp only [Nat.testBit_and, hmaskBit i, Nat.zero_testBit, hbit,
      Bool.true_and, Bool.and_eq_false_iff, decide_eq_false_iff_not] at hbit2
    omega

/-- The source overlap test on a single area agrees with nonempty set
    intersection of the page-number ranges. -/
theorem overlap_iff_inter (a : Area) (l r : Nat) :
    max a.l l < min a.r r ↔ ∃ p, l ≤ p ∧ p < r ∧ a.l ≤ p ∧ p < a.r := by
  constructor
  · intro h
    exact ⟨max a.l l, by omega, by omega, by omega, by omega⟩
  · rintro ⟨p, h1, h2, h3, h4⟩
    omega

/-- `MemorySet::is_overlapped` agrees with the existence of a page shared
    with some existing area. -/
theorem is_overlapped_iff (areas : List Area) (l r : Nat) :
    is_overlapped areas l r = true ↔
      ∃ a ∈ areas, ∃ p, l ≤ p ∧ p < r ∧ a.l ≤ p ∧ p < a.r := by
  simp only [is_overlapped, List.any_eq_true, decide_eq_true_eq]
  constructor
  · rintro ⟨a, ha, h⟩
    exact ⟨a, ha, (overlap_iff_inter a l r).mp h⟩
  · rintro ⟨a, ha, h⟩
    exact ⟨a, ha, (overlap_iff_inter a l r).mpr h⟩

/-- The guard of `sys_mmap` evaluates to false exactly on validated
    arguments (aligned start, some low permission bit, no high bit). -/
theorem mmap_guard_false (start port : Nat) (h1 : aligned start = true)
    (h2 : port &&& 0x7 ≠ 0) (h3 : port &&& (2 ^ 64 - 8) = 0) :
    (!aligned start || port &&& 0x7 == 0 || port &&& (2 ^ 64 - 8) != 0) = false := by
  simp only [Bool.or_eq_false_iff, Bool.not_eq_false', beq_eq_false_iff_ne, ne_eq,
    bne_eq_false_iff_eq]
  exact ⟨⟨h1, h2⟩, h3⟩

/-- C2: For every call to sys_mmap(start, len, port): if start is not
page-aligned, or all three low bits of port are clear, or any bit of port
above bit 2 is set, or the page-number-rounded range (start rounded down,
end = start + len rounded up) intersects an existing mapped area of the
current task, the call returns -1 and the current task's set of mapped
areas is unchanged; otherwise it inserts the framed area and returns 0. -/
theorem mmap_spec (areas : List Area) (start len port : Nat)
    (hport : port < 2 ^ 64) :
    ((¬ start % PAGE_SIZE = 0 ∨
      (∀ i < 3, port.testBit i = false) ∨
      (∃ i, 3 ≤ i ∧ port.testBit i = true) ∨
      (∃ a ∈ areas, ∃ p, floorVpn start ≤ p ∧ p < ceilVpn (start + len) ∧
        a.l ≤ p ∧ p < a.r)) →
      sys_mmap areas start len port = (-1, areas)) ∧
    (start % PAGE_SIZE = 0 →
     (∃ i, i < 3 ∧ port.testBit i = true) →
     (∀ i, 3 ≤ i → port.testBit i = false) →
     (¬ ∃ a ∈ areas, ∃ p, floorVpn start ≤ p ∧ p < ceilVpn (start + len) ∧
        a.l ≤ p ∧ p < a.r) →
      sys_mmap areas start len port =
        (0, areas ++ [{ l := floorVpn start, r := ceilVpn (start + len),
                        perm := mmapPerm port }])) := by
  have hfail : (!aligned start || port &&& 0x7 == 0 || port &&& (2 ^ 64 - 8) != 0) = true →
      sys_mmap areas start len port = (-1, areas) := by
    intro hg
    unfold sys_mmap
    rw [if_pos hg]
  have hpass : (!aligned start || port &&& 0x7 == 0 || port &&& (2 ^ 64 - 8) != 0) = false →
      sys_mmap areas start len port =
        insert_framed_area areas start (start + len) (mmapPerm port) := by
    intro hg
    unfold sys_mmap
    rw [if_neg (fun hc => Bool.noConfusion (hg ▸ hc))]
  constructor
  · intro h
    rcases h with h | h | h | h
    · have ha : aligned start = false := by
        simp only [aligned, beq_eq_false_iff_ne, ne_eq]
        exact h
      exact hfail (by simp [ha])
    · have hz : port &&& 7 = 0 := (land_seven_eq_zero_iff port).mpr h
      exact hfail (by simp [hz])
    · have hnz : port &&& (2 ^ 64 - 8) ≠ 0 := (land_mask_ne_zero_iff port hport).mpr h
      refine hfail ?_
      simp only [Bool.or_eq_true, bne_iff_ne, ne_eq]
      right
      exact hnz
    · have hov : is_overlapped areas (floorVpn start) (ceilVpn (start + len)) = true :=
        (is_overlapped_iff areas (floorVpn start) (ceilVpn (start + len))).mpr h
      by_cases hguard :
          (!aligned start || port &&& 0x7 == 0 || port &&& (2 ^ 64 - 8) != 0) = true
      · exact hfail hguard
      · rw [hpass (by simpa using hguard)]
        unfold insert_framed_area
        rw [if_pos hov]
  · intro ha hlow hhigh hnov
    have hg1 : aligned start = true := by simp [aligned, ha]
    have hg2 : port &&& 7 ≠ 0 := by
      intro h0
      obtain ⟨i, hi, hb⟩ := hlow
      rw [(land_seven_eq_zero_iff port).mp h0 i hi] at hb
      exact Bool.noConfusion hb
    have hg3 : port &&& (2 ^ 64 - 8) = 0 := by
      by_contra h0
      obtain ⟨i, h3i, hb⟩ := (land_mask_ne_zero_iff port hport).mp h0
      rw [hhigh i h3i] at hb
      exact Bool.noConfusion hb
    have hov : is_overlapped areas (floorVpn start) (ceilVpn (start + len)) = false := by
      cases h : is_overlapped areas (floorVpn start) (ceilVpn (start + len)) with
      | false => rfl
      | true =>
        exact absurd ((is_overlapped_iff areas (floorVpn start) (ceilVpn (start + len))).mp h) hnov
    rw [hpass (mmap_guard_false start port hg1 hg2 hg3)]
    unfold insert_framed_area
    rw [if_neg (by simp [hov])]

/-- Concrete instantiation of `mmap_spec`: on an empty address space,
mapping one byte at address 4096 with read permission succeeds and records
the area over page range [1, 2). -/
theorem mmap_spec_witness :
    sys_mmap [] 4096 1 1 = (0, [{ l := 1, r := 2, perm := 18 }]) := by
  have h := (mmap_spec [] 4096 1 1 (by norm_num)).2 (by decide)
    ⟨0, by norm_num, by decide⟩
    (fun i hi => by
      have h1 : (1 : Nat) < 2 ^ i := by
        calc (1 : Nat) < 2 ^ 3 := by norm_num
        _ ≤ 2 ^ i := Nat.pow_le_pow_right (by norm_num) (by omega)
      exact Nat.testBit_lt_two_pow h1)
    (by simp)
  simpa [floorVpn, ceilVpn, PAGE_SIZE, mmapPerm,
    MAP_PERM_R, MAP_PERM_W, MAP_PERM_X, MAP_PERM_U] using h

/-- Removing a freshly appended area restores the original list exactly. -/
theorem removeArea_append_fresh (pre : List Area) (l r perm : Nat)
    (h : ∀ a ∈ pre, ¬(a.l = l ∧ a.r = r)) :
    removeArea (pre ++ [{ l := l, r := r, perm := perm }]) l r = some pre := by
  induction pre with
  | nil => simp [removeArea]
  | cons a rest ih =>
    have hcond : (a.l == l && a.r == r) = false := by
      cases h1 : a.l == l with
      | false => simp
      | true =>
        cases h2 : a.r == r with
        | false => simp
        | true =>
          exact absurd ⟨by simpa using h1, by simpa using h2⟩ (h a (by simp))
    simp [removeArea, hcond, ih (fun a ha => h a (by simp [ha]))]

/-- A request range that is nonempty and does not overlap any area of the
    address space matches no existing area exactly. -/
theorem fresh_of_not_overlapped (areas : List Area) (l r : Nat) (hlr : l < r)
    (hov : is_overlapped areas l r = false) :
    ∀ a ∈ areas, ¬(a.l = l ∧ a.r = r) := by
  rintro a ha ⟨h1, h2⟩
  have ht : is_overlapped areas l r = true := by
    simp only [is_overlapped, List.any_eq_true, decide_eq_true_eq]
    exact ⟨a, ha, by omega⟩
  rw [ht] at hov
  exact Bool.noConfusion hov

/-- With a page-aligned start and a positive length, the rounded range is
    nonempty. -/
theorem floor_lt_ceil (start len : Nat) (ha : start % PAGE_SIZE = 0)
    (hlen : 0 < len) : floorVpn start < ceilVpn (start + len) := by
  simp only [floorVpn, ceilVpn, PAGE_SIZE] at *
  omega

/-- C3: For every address space state S and every requested area
(start, len) whose rounded page range does not intersect any area of S and
whose arguments pass validation, performing sys_mmap(start, len, port)
followed by sys_munmap(start, len) returns the address space to exactly
the set of mapped areas it had before the pair of calls, and this
round-trip holds under repetition and for all non-overlapping pairs of
such requested areas. -/
theorem mmap_munmap_roundtrip (areas : List Area) (start len port : Nat)
    (hlen : 0 < len) (ha : start % PAGE_SIZE = 0)
    (hp1 : port &&& 0x7 ≠ 0) (hp2 : port &&& (2 ^ 64 - 8) = 0)
    (hov : is_overlapped areas (floorVpn start) (ceilVpn (start + len)) = false) :
    (∃ mid, sys_mmap areas start len port = (0, mid) ∧
            sys_munmap mid start len = (0, areas)) ∧
    (∀ start2 len2 port2, 0 < len2 → start2 % PAGE_SIZE = 0 →
      port2 &&& 0x7 ≠ 0 → port2 &&& (2 ^ 64 - 8) = 0 →
      is_overlapped areas (floorVpn start2) (ceilVpn (start2 + len2)) = false →
      min (ceilVpn (start + len)) (ceilVpn (start2 + len2)) ≤
        max (floorVpn start) (floorVpn start2) →
      ∃ m1 m2 m3,
        sys_mmap areas start len port = (0, m1) ∧
        sys_mmap m1 start2 len2 port2 = (0, m2) ∧
        sys_munmap m2 start2 len2 = (0, m3) ∧
        sys_munmap m3 start len = (0, areas)) := by
  have hg1 : aligned start = true := by simp [aligned, ha]
  have hlr : floorVpn start < ceilVpn (start + len) := floor_lt_ceil start len ha hlen
  have hmmap : sys_mmap areas start len port =
      (0, areas ++ [{ l := floorVpn start, r := ceilVpn (start + len),
                      perm := mmapPerm port }]) := by
    have hguardf := mmap_guard_false start port hg1 hp1 hp2
    unfold sys_mmap
    rw [if_neg (fun hc => Bool.noConfusion (hguardf ▸ hc))]
    unfold insert_framed_area
    rw [if_neg (by simp [hov])]
  have hmunmap : sys_munmap
      (areas ++ [{ l := floorVpn start, r := ceilVpn (start + len),
                   perm := mmapPerm port }]) start len = (0, areas) := by
    have hfresh := fresh_of_not_overlapped areas _ _ hlr hov
    simp [sys_munmap, hg1, unmap_framed_area,
      removeArea_append_fresh areas _ _ (mmapPerm port) hfresh]
  constructor
  · exact ⟨_, hmmap, hmunmap⟩
  · intro start2 len2 port2 hlen2 ha2 hq1 hq2 hov2 hdisj
    have hg2 : aligned start2 = true := by simp [aligned, ha2]
    have hlr2 : floorVpn start2 < ceilVpn (start2 + len2) := floor_lt_ceil start2 len2 ha2 hlen2
    set A : Area := { l := floorVpn start, r := ceilVpn (start + len),
                      perm := mmapPerm port } with hA
    set B : Area := { l := floorVpn start2, r := ceilVpn (start2 + len2),
                      perm := mmapPerm port2 } with hB
    have hovA : is_overlapped (areas ++ [A]) (floorVpn start2) (ceilVpn (start2 + len2)) = false := by
      simp only [is_overlapped, List.any_append, Bool.or_eq_false_iff]
      refine ⟨hov2, ?_⟩
      simp only [List.any_cons, List.any_nil, Bool.or_false, decide_eq_false_iff_not, hA]
      omega
    have hmmap2 : sys_mmap (areas ++ [A]) start2 len2 port2 = (0, (areas ++ [A]) ++ [B]) := by
      have hguardf2 := mmap_guard_false start2 port2 hg2 hq1 hq2
      unfold sys_mmap
      rw [if_neg (fun hc => Bool.noConfusion (hguardf2 ▸ hc))]
      unfold insert_framed_area
      rw [if_neg (by simp [hovA])]
    have hfreshB : ∀ a ∈ areas ++ [A], ¬(a.l = floorVpn start2 ∧ a.r = ceilVpn (start2 + len2)) := by
      intro a hmem
      rcases List.mem_append.mp hmem with hmem | hmem
      · exact fresh_of_not_overlapped areas _ _ hlr2 hov2 a hmem
      · have haA : a = A := by simpa using hmem
        subst haA
        rintro ⟨h1, h2⟩
        simp only [hA] at h1 h2
        omega
    have hrem := removeArea_append_fresh (areas ++ [A]) (floorVpn start2)
      (ceilVpn (start2 + len2)) (mmapPerm port2) hfreshB
    have hmunmap2 : sys_munmap ((areas ++ [A]) ++ [B]) start2 len2 = (0, areas ++ [A]) := by
      unfold sys_munmap
      rw [if_neg (by simp [hg2])]
      unfold unmap_framed_area
      rw [hB, hrem]
    exact ⟨areas ++ [A], (areas ++ [A]) ++ [B], areas ++ [A],
      hmmap, hmmap2, hmunmap2, hmunmap⟩

/-- Concrete instantiation of `mmap_munmap_roundtrip`: a map/unmap pair at
4096 restores the empty address space, also interleaved with a second
disjoint request at 0. -/
theorem mmap_munmap_roundtrip_witness :
    (∃ mid, sys_mmap [] 4096 4096 7 = (0, mid) ∧
            sys_munmap mid 4096 4096 = (0, [])) ∧
    (∃ m1 m2 m3,
      sys_mmap [] 4096 4096 7 = (0, m1) ∧
      sys_mmap m1 0 1 1 = (0, m2) ∧
      sys_munmap m2 0 1 = (0, m3) ∧
      sys_munmap m3 4096 4096 = (0, [])) := by
  have h := mmap_munmap_roundtrip [] 4096 4096 7 (by norm_num) (by decide)
    (by decide) (by decide) (by decide)
  exact ⟨h.1, h.2 0 1 1 (by norm_num) (by decide) (by decide) (by decide)
    (by decide) (by decide)⟩

/-- C8 as stated is false: `sys_mmap(0, 1, 7)` has the unaligned region
end `start + len = 1`, yet it is accepted (returns 0), the end being
silently rounded up to the next page boundary. -/
theorem mmap_unaligned_end_accepted_cex :
    (sys_mmap [] 0 1 7).1 = 0 ∧ aligned (0 + 1) = false := by
  decide

/-- C8 (amended): only the start address is checked for page alignment: an
unaligned start makes both sys_mmap and sys_munmap return -1 with the
mapped areas unchanged, while an unaligned region end start + len is not
rejected but silently rounded up to the next page boundary. -/
theorem unaligned_start_rejected (areas : List Area) (start len port : Nat)
    (h : ¬ start % PAGE_SIZE = 0) :
    sys_mmap areas start len port = (-1, areas) ∧
    sys_munmap areas start len = (-1, areas) := by
  have ha : aligned start = false := by
    simp only [aligned, beq_eq_false_iff_ne, ne_eq]
    exact h
  exact ⟨by simp [sys_mmap, ha], by simp [sys_munmap, ha]⟩

/-- Concrete instantiation of `unaligned_start_rejected` at start 5. -/
theorem unaligned_start_rejected_witness :
    sys_mmap [] 5 4096 7 = (-1, []) ∧ sys_munmap [] 5 4096 = (-1, []) :=
  unaligned_start_rejected [] 5 4096 7 (by decide)

/-! ## Theorems about `sys_fork` and `sys_sbrk` -/

/-- C4: For every call to sys_fork by a running task: the new child task
has a pid distinct from the parent's, the return-value register slot
(x[10]) of the child's trap context is set to 0 so the child's first
observed return value is 0, the child is added to the scheduler's ready
queue, and the call returns the child's pid to the parent. -/
theorem fork_spec (parent : ForkTask) (env : ForkEnv)
    (hfresh : parent.pid < env.next_pid) :
    ∃ child : ForkTask,
      (sys_fork parent env).2.ready_queue = env.ready_queue ++ [child] ∧
      child.pid ≠ parent.pid ∧
      child.trap_x10 = 0 ∧
      (sys_fork parent env).1 = (child.pid : Int) := by
  refine ⟨{ pid := env.next_pid, trap_x10 := 0 }, rfl, ?_, rfl, rfl⟩
  simp only [ne_eq]
  omega

/-- Concrete instantiation of `fork_spec`: forking the task of pid 3. -/
theorem fork_spec_witness :
    ∃ child : ForkTask,
      (sys_fork { pid := 3, trap_x10 := 7 }
        { next_pid := 10, ready_queue := [] }).2.ready_queue = [child] ∧
      child.pid ≠ 3 ∧
      child.trap_x10 = 0 ∧
      (sys_fork { pid := 3, trap_x10 := 7 }
        { next_pid := 10, ready_queue := [] }).1 = (child.pid : Int) :=
  fork_spec { pid := 3, trap_x10 := 7 } { next_pid := 10, ready_queue := [] }
    (by decide)

/-- C5: For every call to sys_sbrk(delta): if the underlying break
adjustment succeeds it returns the old break value (in particular
sys_sbrk(0) never fails and returns the current break); if delta would
shrink the heap below its fixed base the call returns -1 and the break
position is unchanged. -/
theorem sbrk_spec (st : HeapState) (size : Int)
    (hinv : st.heap_bottom ≤ st.program_brk) :
    (∀ old_brk st2, change_program_brk st size = (some old_brk, st2) →
      sys_sbrk st size = ((old_brk : Int), st2) ∧ old_brk = st.program_brk) ∧
    sys_sbrk st 0 = ((st.program_brk : Int), st) ∧
    ((st.program_brk : Int) + size < (st.heap_bottom : Int) →
      sys_sbrk st size = (-1, st)) := by
  refine ⟨?_, ?_, ?_⟩
  · intro old_brk st2 h
    refine ⟨?_, ?_⟩
    · unfold sys_sbrk
      rw [h]
    · unfold change_program_brk at h
      by_cases hc : (st.program_brk : Int) + size < (st.heap_bottom : Int)
      · rw [if_pos hc] at h
        exact absurd h (by simp)
      · rw [if_neg hc] at h
        simp only [Prod.mk.injEq, Option.some.injEq] at h
        exact h.1.symm
  · unfold sys_sbrk change_program_brk
    rw [if_neg (by omega)]
    have hbrk : ((st.program_brk : Int) + 0).toNat = st.program_brk := by omega
    rw [hbrk]
  · intro hlt
    unfold sys_sbrk change_program_brk
    rw [if_pos hlt]

/-- Concrete instantiation of `sbrk_spec`: with heap base 100 and break
200, sbrk(0) returns 200 leaving the state unchanged, and sbrk(-150)
fails with -1 leaving the state unchanged. -/
theorem sbrk_spec_witness :
    sys_sbrk { heap_bottom := 100, program_brk := 200 } 0 =
      (200, { heap_bottom := 100, program_brk := 200 }) ∧
    sys_sbrk { heap_bottom := 100, program_brk := 200 } (-150) =
      (-1, { heap_bottom := 100, program_brk := 200 }) := by
  have h := sbrk_spec { heap_bottom := 100, program_brk := 200 } (-150) (by decide)
  exact ⟨h.2.1, h.2.2 (by decide)⟩

/-! ## Theorems about the two schedulers -/

/-- C7 as stated is false for the processor's idle loop: with an empty
ready queue, one iteration of run_tasks logs a warning and retries; it
does not halt the kernel. -/
theorem run_tasks_empty_queue_cex :
    run_tasks_step [] = RunTasksOutcome.warnContinue ∧
    RunTasksOutcome.warnContinue ≠ RunTasksOutcome.halt :=
  ⟨rfl, by decide⟩

/-- C7 (amended): when the TaskManager of task/mod.rs must select a task
and no Ready task exists, run_next_task panics (All applications
completed!); the processor's idle loop run_tasks of task/processor.rs,
by contrast, logs a warning and retries on an empty ready queue, and
never halts. -/
theorem empty_queue_behavior (tm : TMState) (now : Nat) (queue : List PTask) :
    (find_next_task tm = none →
      run_next_task tm now = (RunNextOutcome.panicAllCompleted, tm)) ∧
    (fetch_task queue = none →
      run_tasks_step queue = RunTasksOutcome.warnContinue) ∧
    run_tasks_step queue ≠ RunTasksOutcome.halt := by
  refine ⟨?_, ?_, ?_⟩
  · intro h
    unfold run_next_task
    rw [h]
  · intro h
    unfold run_tasks_step
    rw [h]
  · cases h : fetch_task queue with
    | none => simp [run_tasks_step, h]
    | some p =>
      obtain ⟨t, rest⟩ := p
      simp [run_tasks_step, h]

/-- Concrete instantiation of `empty_queue_behavior`: the empty
TaskManager panics, the empty processor queue only warns. -/
theorem empty_queue_behavior_witness :
    run_next_task { num_app := 0, tasks := [], current_task := 0 } 5 =
      (RunNextOutcome.panicAllCompleted,
       { num_app := 0, tasks := [], current_task := 0 }) ∧
    run_tasks_step [] = RunTasksOutcome.warnContinue := by
  have h := empty_queue_behavior { num_app := 0, tasks := [], current_task := 0 } 5 []
  exact ⟨h.1 (by decide), h.2.1 (by decide)⟩

/-- C9 as stated is false: run_tasks dispatches a fetched ready task
whose first-scheduled timestamp was never recorded and leaves the
timestamp unrecorded; no timestamp is written before the context
switch. -/
theorem run_tasks_no_timestamp_cex :
    ∃ t rest,
      run_tasks_step [{ status := TaskStatus.Ready, scheduled_time := none }] =
        RunTasksOutcome.dispatch t rest ∧ t.scheduled_time = none :=
  ⟨_, _, rfl, rfl⟩

/-- C9 (amended): the idle loop run_tasks of task/processor.rs sets the
fetched task's status to Running before switching but records no
timestamp (scheduled_time passes through unchanged); the first-scheduled
timestamp is recorded — exactly once, only when still absent — by
TaskManager::run_next_task of task/mod.rs before its context switch. -/
theorem dispatch_marks_running (queue : List PTask) (t : PTask)
    (rest : List PTask) (tm : TMState) (now next : Nat) (tt : TMTask) :
    (fetch_task queue = some (t, rest) →
      ∃ t2, run_tasks_step queue = RunTasksOutcome.dispatch t2 rest ∧
        t2.status = TaskStatus.Running ∧
        t2.scheduled_time = t.scheduled_time) ∧
    (find_next_task tm = some next → tm.tasks.get? next = some tt →
      ∃ tt2, run_next_task tm now =
          (RunNextOutcome.switchTo next,
           { tm with tasks := tm.tasks.set next tt2, current_task := next }) ∧
        tt2.status = TMStatus.Running ∧
        (tt.scheduled_time = none → tt2.scheduled_time = some now) ∧
        (∀ x, tt.scheduled_time = some x → tt2.scheduled_time = some x)) := by
  constructor
  · intro h
    refine ⟨{ t with status := TaskStatus.Running }, ?_, rfl, rfl⟩
    unfold run_tasks_step
    rw [h]
  · intro h1 h2
    refine ⟨{ tt with
        status := TMStatus.Running,
        scheduled_time :=
          if tt.scheduled_time = none then some now else tt.scheduled_time },
      ?_, rfl, ?_, ?_⟩
    · simp only [run_next_task, h1, h2]
    · intro hx
      simp [hx]
    · intro x hx
      simp [hx]

/-- Concrete instantiation of `dispatch_marks_running`: a one-task queue
on each scheduler. -/
theorem dispatch_marks_running_witness :
    (∃ t2, run_tasks_step [{ status := TaskStatus.Ready, scheduled_time := some 4 }] =
        RunTasksOutcome.dispatch t2 [] ∧
      t2.status = TaskStatus.Running ∧ t2.scheduled_time = some 4) ∧
    (∃ tt2, run_next_task
        { num_app := 1,
          tasks := [{ status := TMStatus.Ready, scheduled_time := none }],
          current_task := 0 } 9 =
        (RunNextOutcome.switchTo 0,
         { num_app := 1,
           tasks := [{ status := TMStatus.Ready, scheduled_time := none }].set 0 tt2,
           current_task := 0 }) ∧
      tt2.status = TMStatus.Running ∧
      ((none : Option Nat) = none → tt2.scheduled_time = some 9) ∧
      (∀ x, (none : Option Nat) = some x → tt2.scheduled_time = some x)) := by
  have h := dispatch_marks_running
    [{ status := TaskStatus.Ready, scheduled_time := some 4 }]
    { status := TaskStatus.Ready, scheduled_time := some 4 } []
    { num_app := 1,
      tasks := [{ status := TMStatus.Ready, scheduled_time := none }],
      current_task := 0 } 9 0
    { status := TMStatus.Ready, scheduled_time := none }
  exact ⟨h.1 (by decide), h.2 (by decide) (by decide)⟩

/-! ## Theorems about the syscall counter -/

/-- Counting a syscall bumps the stored count of exactly that id by one,
    creating the entry at 1 when absent. -/
theorem counterGet_count_same (m : List (Nat × Nat)) (id : Nat) :
    counterGet (count_current_syscall m id) id =
      some ((counterGet m id).getD 0 + 1) := by
  induction m with
  | nil => simp [count_current_syscall, counterGet]
  | cons p rest ih =>
    obtain ⟨k, v⟩ := p
    by_cases h : k = id
    · subst h
      simp [count_current_syscall, counterGet]
    · simp [count_current_syscall, counterGet, h, ih]

/-- Counting a syscall leaves every other id's stored count unchanged. -/
theorem counterGet_count_other (m : List (Nat × Nat)) (id j : Nat)
    (hne : j ≠ id) :
    counterGet (count_current_syscall m id) j = counterGet m j := by
  induction m with
  | nil => simp [count_current_syscall, counterGet, Ne.symm hne]
  | cons p rest ih =>
    obtain ⟨k, v⟩ := p
    by_cases h : k = id
    · subst h
      simp [count_current_syscall, counterGet, Ne.symm hne]
    · by_cases hkj : k = j
      · subst hkj
        simp [count_current_syscall, counterGet, h]
      · simp [count_current_syscall, counterGet, h, hkj, ih]

/-- A key that is not stored looks up to nothing. -/
theorem counterGet_eq_none (m : List (Nat × Nat)) (k : Nat)
    (h : k ∉ m.map Prod.fst) : counterGet m k = none := by
  induction m with
  | nil => rfl
  | cons p rest ih =>
    obtain ⟨k2, v⟩ := p
    simp only [List.map_cons, List.mem_cons, not_or] at h
    have hne : k2 ≠ k := fun hh => h.1 hh.symm
    simp [counterGet, hne, ih h.2]

theorem get_set_self {α : Type} (l : List α) (i : Nat) (a : α)
    (h : i < l.length) : (l.set i a).get? i = some a := by
  induction l generalizing i with
  | nil => simp at h
  | cons x xs ih =>
    match i with
    | 0 => rfl
    | i + 1 => exact ih i (by simpa using h)

theorem get_set_ne {α : Type} (l : List α) (i j : Nat) (a : α)
    (h : i ≠ j) : (l.set i a).get? j = l.get? j := by
  induction l generalizing i j with
  | nil => rfl
  | cons x xs ih =>
    match i, j with
    | 0, 0 => exact absurd rfl h
    | 0, j + 1 => rfl
    | i + 1, 0 => rfl
    | i + 1, j + 1 => exact ih i j (by omega)

theorem get_replicate_lt {α : Type} (n i : Nat) (a : α) (h : i < n) :
    (List.replicate n a).get? i = some a := by
  induction n generalizing i with
  | zero => omega
  | succ n ih =>
    match i with
    | 0 => rfl
    | i + 1 => exact ih i (by omega)

/-- The dense-array fold of `current_syscall_counter`, characterised
    entrywise over any accumulator. -/
theorem counter_fold (maxNum : Nat) (m : List (Nat × Nat)) :
    ∀ acc : List Nat, acc.length = maxNum →
      (m.map Prod.fst).Nodup →
      (∀ k ∈ m.map Prod.fst, k < maxNum) →
      ∃ res,
        m.foldlM
          (fun acc2 p => if p.1 < maxNum then some (acc2.set p.1 p.2) else none)
          acc = some res ∧
        res.length = maxNum ∧
        ∀ i, i < maxNum →
          res.get? i = match counterGet m i with
            | some v => some v
            | none => acc.get? i := by
  induction m with
  | nil =>
    intro acc hlen _ _
    exact ⟨acc, rfl, hlen, fun i _ => by simp [counterGet]⟩
  | cons p rest ih =>
    obtain ⟨k, v⟩ := p
    intro acc hlen hnodup hbound
    have hk : k < maxNum := hbound k (by simp)
    rw [List.map_cons, List.nodup_cons] at hnodup
    obtain ⟨hknotin, hnodup2⟩ := hnodup
    obtain ⟨res, hfold, hreslen, hres⟩ := ih (acc.set k v) (by simp [hlen])
      hnodup2 (fun k2 hk2 => hbound k2 (by simp [hk2]))
    refine ⟨res, ?_, hreslen, ?_⟩
    · rw [List.foldlM_cons]
      simp only [if_pos hk, Option.bind_eq_bind, Option.some_bind]
      exact hfold
    · intro i hi
      by_cases hik : i = k
      · subst hik
        have hnone : counterGet rest i = none := counterGet_eq_none rest i hknotin
        have hstep : res.get? i = (acc.set i v).get? i := by
          rw [hres i hi, hnone]
        rw [hstep, get_set_self acc i v (by omega)]
        simp [counterGet]
      · have hkne : k ≠ i := fun hh => hik hh.symm
        rw [hres i hi, get_set_ne acc k i v hkne]
        have hcons : counterGet ((k, v) :: rest) i = counterGet rest i := by
          simp [counterGet, hkne]
        rw [hcons]

/-- C10: For every task state and every syscall id,
count_current_syscall(syscall_id) increases the current task's stored
count for exactly that syscall id by one (creating the entry with value
1 if absent), leaves the counts of every other syscall id unchanged, and
the array returned by current_syscall_counter has, at each index,
exactly the stored count for that id and zero for ids never counted. -/
theorem syscall_counter_spec (m : List (Nat × Nat)) (syscall_id maxNum : Nat)
    (hnodup : (m.map Prod.fst).Nodup)
    (hbound : ∀ k ∈ m.map Prod.fst, k < maxNum) :
    counterGet (count_current_syscall m syscall_id) syscall_id =
      some ((counterGet m syscall_id).getD 0 + 1) ∧
    (∀ j, j ≠ syscall_id →
      counterGet (count_current_syscall m syscall_id) j = counterGet m j) ∧
    (∃ res, current_syscall_counter maxNum m = some res ∧
      res.length = maxNum ∧
      ∀ i, i < maxNum → res.get? i = some ((counterGet m i).getD 0)) := by
  refine ⟨counterGet_count_same m syscall_id,
    fun j hj => counterGet_count_other m syscall_id j hj, ?_⟩
  obtain ⟨res, hfold, hlen, hres⟩ := counter_fold maxNum m
    (List.replicate maxNum 0) (by simp) hnodup hbound
  refine ⟨res, hfold, hlen, ?_⟩
  intro i hi
  rw [hres i hi]
  cases h : counterGet m i with
  | none =>
    show (List.replicate maxNum 0).get? i = some (Option.getD none 0)
    rw [get_replicate_lt maxNum i 0 hi]
    rfl
  | some v => rfl

/-- Concrete instantiation of `syscall_counter_spec`: the map holding two
calls of syscall 3, bumped at 3, read back as a dense array of width 5. -/
theorem syscall_counter_spec_witness :
    counterGet (count_current_syscall [(3, 2)] 3) 3 = some 3 ∧
    counterGet (count_current_syscall [(3, 2)] 3) 4 = counterGet [(3, 2)] 4 ∧
    ∃ res, current_syscall_counter 5 [(3, 2)] = some res ∧
      res.length = 5 ∧
      ∀ i, i < 5 → res.get? i = some ((counterGet [(3, 2)] i).getD 0) := by
  have h := syscall_counter_spec [(3, 2)] 3 5 (by decide) (by decide)
  refine ⟨?_, h.2.1 4 (by decide), h.2.2⟩
  have h1 := h.1
  simp only [counterGet, count_current_syscall] at h1 ⊢
  exact h1

end RCore
